import Mathlib

/-!
Shallow embedding of the juju EC2 provider (`environs/ec2/ec2.go`) and proofs
about its instance-lifecycle and security-group reconciliation logic.

The remote EC2/S3 API is modelled by passing the responses of the calls an
operation makes as explicit arguments; a retry loop bounded by a wall-clock
attempt strategy is modelled by the (nonempty) list of results the successive
attempts would observe.  Machine-level details (goroutines, wall-clock time)
are abstracted away; control flow, error classification and the data
transformations are translated directly from the Go source.
-/

set_option autoImplicit false

namespace JujuEC2

/-- Errors observable by the provider code.  A Go `error` value is `Option Err`
(`none` = nil).  `s3` mirrors `*s3.Error` (carrying an HTTP status code),
`ec2` mirrors `*ec2.Error` (carrying a machine-readable code string),
`missingInstance` is the distinguished `environs.ErrMissingInstance` value,
and `other` stands for any other error (e.g. one built by `fmt.Errorf`). -/
inductive Err where
  | s3 (statusCode : Nat) (msg : String)
  | ec2 (code : String) (msg : String)
  | missingInstance
  | other (msg : String)
  deriving DecidableEq, Repr

/-- `ec2ErrCode`: if the error is of type `*ec2.Error` return its code,
otherwise the empty string (the failed type assertion in Go). -/
def ec2ErrCode : Option Err → String
  | some (.ec2 code _) => code
  | _ => ""

/-- A record of an EC2 instance as returned by the API (`ec2.Instance`):
the fields the provider reads are the instance id and the DNS name. -/
structure EC2Instance where
  instanceId : String
  dnsName : String := ""
  deriving DecidableEq, Repr

/-! ## Permission sets (`permKey`, `permSet`, `newPermSet`, `ipPerms`) -/

/-- `permKey` represents a permission for a group or an ip address range to
access the given range of ports.  Only one of `groupId` or `ipAddr` should be
non-empty. -/
structure permKey where
  protocol : String
  fromPort : Int
  toPort : Int
  groupId : String
  ipAddr : String
  deriving DecidableEq, Repr

/-- `ec2.UserSecurityGroup`: a source group reference inside an `IPPerm`.
`newPermSet` ignores the name and owner id, using group ids only. -/
structure UserSecurityGroup where
  id : String
  name : String := ""
  ownerId : String := ""
  deriving DecidableEq, Repr

/-- `ec2.IPPerm`: one firewall rule, possibly carrying several source CIDRs
and several source groups. -/
structure IPPerm where
  protocol : String
  fromPort : Int
  toPort : Int
  sourceIPs : List String := []
  sourceGroups : List UserSecurityGroup := []
  deriving DecidableEq, Repr

/-- The permission keys contributed by a single `IPPerm` in `newPermSet`:
one key per source group (with empty `ipAddr`) and one key per source IP
(with empty `groupId`), exactly as the two inner loops of the Go function
build them. -/
def permKeysOf (p : IPPerm) : List permKey :=
  (p.sourceGroups.map fun g =>
    { protocol := p.protocol, fromPort := p.fromPort, toPort := p.toPort
      groupId := g.id, ipAddr := "" })
  ++ (p.sourceIPs.map fun ip =>
    { protocol := p.protocol, fromPort := p.fromPort, toPort := p.toPort
      groupId := "", ipAddr := ip })

/-- A `permSet` is a set of permission keys (Go: `map[permKey]bool`). -/
abbrev permSet := Finset permKey

/-- `newPermSet` returns a set of all the permissions in the given slice of
`IPPerm`s, flattening each rule into one set member per source group / source
IP. -/
def newPermSet (ps : List IPPerm) : permSet :=
  (ps.flatMap permKeysOf).toFinset

/-- `permSet.ipPerms` returns the set as a slice of permissions usable with
the ec2 package.  Go iterates the map in an unspecified order; the embedding
takes that enumeration of the set as an explicit list of keys.  A key with a
non-empty `ipAddr` becomes a rule with that single source IP; any other key
becomes a rule with a single source group holding the key's group id. -/
def ipPermsOfKeys (keys : List permKey) : List IPPerm :=
  keys.map fun p =>
    if p.ipAddr ≠ "" then
      { protocol := p.protocol, fromPort := p.fromPort, toPort := p.toPort
        sourceIPs := [p.ipAddr], sourceGroups := [] }
    else
      { protocol := p.protocol, fromPort := p.fromPort, toPort := p.toPort
        sourceIPs := [], sourceGroups := [{ id := p.groupId }] }

/-- The text a Go `%v` format verb would render for an error: the embedding
keeps just the message payload (claims never inspect these strings). -/
def errText : Err → String
  | .s3 _ msg => msg
  | .ec2 _ msg => msg
  | .missingInstance => "no instances found"
  | .other msg => msg

/-! ## Security-group reconciliation (`ensureGroup`) -/

/-- `ec2.SecurityGroup`: a group handle. -/
structure SecurityGroup where
  id : String
  name : String := ""
  deriving DecidableEq, Repr

/-- One group of an `ec2.SecurityGroupsResp`: the handle plus its current
rules (`resp.Groups[0]` in the source). -/
structure SecurityGroupInfo where
  group : SecurityGroup
  ipPerms : List IPPerm
  deriving DecidableEq, Repr

/-- The remote responses one `ensureGroup` call may observe:
`CreateSecurityGroup`, `SecurityGroups` (describe), `RevokeSecurityGroup`
and `AuthorizeSecurityGroup`. -/
structure EnsureEnv where
  createResult : Except Err SecurityGroup
  describeResult : Except Err SecurityGroupInfo
  revokeResult : Option Err
  authorizeResult : Option Err

/-- Result of `ensureGroup` plus the revoke/authorize calls it issued
(`none` = the call was not made; `some s` = one call carrying exactly the
permission set `s`). -/
structure EnsureOut where
  result : Except Err SecurityGroup
  revokeCall : Option permSet
  authorizeCall : Option permSet

/-- The revoke-then-authorize tail of `ensureGroup`: `revoke = cur \ want`
is revoked when non-empty, then `add = want \ cur` is authorized when
non-empty; an error from either call aborts (so a revoke failure suppresses
the authorize call). -/
def ensureGroupApply (env : EnsureEnv) (want cur : permSet) (g : SecurityGroup) : EnsureOut :=
  let revoke := cur \ want
  if revoke = ∅ then
    let add := want \ cur
    if add = ∅ then ⟨.ok g, none, none⟩
    else match env.authorizeResult with
      | some e => ⟨.error (.other ("cannot authorize securityGroup: " ++ errText e)), none, some add⟩
      | none => ⟨.ok g, none, some add⟩
  else
    match env.revokeResult with
    | some e => ⟨.error (.other ("cannot revoke security group: " ++ errText e)), some revoke, none⟩
    | none =>
        let add := want \ cur
        if add = ∅ then ⟨.ok g, some revoke, none⟩
        else match env.authorizeResult with
          | some e => ⟨.error (.other ("cannot authorize securityGroup: " ++ errText e)), some revoke, some add⟩
          | none => ⟨.ok g, some revoke, some add⟩

/-- `ensureGroup`: create the group; on an `InvalidGroup.Duplicate` error
fetch the existing group and its rules instead; then converge the rule set
via `ensureGroupApply`.  When creation succeeded the current rule set is
empty. -/
def ensureGroup (env : EnsureEnv) (perms : List IPPerm) : EnsureOut :=
  match env.createResult with
  | .ok g => ensureGroupApply env (newPermSet perms) ∅ g
  | .error e =>
      if ec2ErrCode (some e) ≠ "InvalidGroup.Duplicate" then ⟨.error e, none, none⟩
      else match env.describeResult with
        | .error e2 => ⟨.error e2, none, none⟩
        | .ok info => ensureGroupApply env (newPermSet perms) (newPermSet info.ipPerms) info.group

/-! ## Bootstrap -/

/-- The persisted bootstrap state record. -/
structure bootstrapState where
  zookeeperInstances : List String
  deriving DecidableEq, Repr

/-- Whether a failed `loadState` aborts `Bootstrap`: only an `*s3.Error`
whose status code is not 404 does (the Go type assertion yields nil for any
other error kind, and the guard `s3err != nil && s3err.StatusCode != 404`
is then false). -/
def bootstrapLoadAborts : Err → Bool
  | .s3 status _ => status ≠ 404
  | _ => false

/-- Observable outcome of `Bootstrap`: its returned error, whether
`startInstance` was reached, and the `StopInstances` cleanup calls issued
(each one the list of instance ids passed). -/
structure BootstrapOut where
  result : Option Err
  startAttempted : Bool
  stopCalls : List (List String)
  deriving DecidableEq, Repr

/-- `Bootstrap`, with the responses of `loadState`, `startInstance`,
`saveState` and the cleanup `StopInstances` passed explicitly.  The result
of the cleanup call is deliberately discarded by the source ("ignore error
on StopInstance because the previous error is more important"). -/
def Bootstrap (loadResult : Except Err bootstrapState)
    (startResult : Except Err EC2Instance)
    (saveResult : Option Err) (stopResult : Option Err) : BootstrapOut :=
  match loadResult with
  | .ok _ => ⟨some (.other "environment is already bootstrapped"), false, []⟩
  | .error e =>
      if bootstrapLoadAborts e then ⟨some e, false, []⟩
      else match startResult with
        | .error e2 => ⟨some (.other ("cannot start bootstrap instance: " ++ errText e2)), true, []⟩
        | .ok inst =>
            match saveResult with
            | some e3 =>
                let _ := stopResult
                ⟨some e3, true, [[inst.instanceId]]⟩
            | none => ⟨none, true, []⟩

/-! ## terminateInstances -/

/-- Outcome of the bulk-terminate retry loop: `early r` = the loop returned
`r` from inside its body (success or a non-not-found error), `exhausted e` =
every attempt failed with `InvalidInstanceID.NotFound` and `e` is the last
such error; both record how many bulk calls were made. -/
inductive BulkOut where
  | early (r : Option Err) (calls : Nat)
  | exhausted (e : Err) (calls : Nat)
  deriving DecidableEq, Repr

/-- The `for a := shortAttempt.start(); a.next()` bulk loop of
`terminateInstances` over the list of results the successive
`TerminateInstances` calls would return (the strategy always grants at
least one attempt, so the input is nonempty). -/
def runBulk : List (Option Err) → BulkOut
  | [] => .exhausted (.ec2 "InvalidInstanceID.NotFound" "") 0
  | r :: rs =>
      if r = none ∨ ec2ErrCode r ≠ "InvalidInstanceID.NotFound" then .early r 1
      else match rs with
        | [] =>
            match r with
            | some e => .exhausted e 1
            | none => .early none 1
        | _ :: _ =>
            match runBulk rs with
            | .early r2 n => .early r2 (n + 1)
            | .exhausted e n => .exhausted e (n + 1)

/-- The one-at-a-time fallback of `terminateInstances`: terminate each id
individually, turn a not-found error into success, and remember the first
remaining error. -/
def termFallback (single : String → Option Err) : List String → Option Err → Option Err
  | [], firstErr => firstErr
  | id :: rest, firstErr =>
      let e := single id
      let e2 := if ec2ErrCode e = "InvalidInstanceID.NotFound" then none else e
      let firstErr2 := if e2 ≠ none ∧ firstErr = none then e2 else firstErr
      termFallback single rest firstErr2

/-- Result of `terminateInstances` plus every `TerminateInstances` API call
made (each recorded as the id list passed to it). -/
structure TermOut where
  result : Option Err
  calls : List (List String)
  deriving DecidableEq, Repr

/-- `terminateInstances`: empty input is a no-op; otherwise run the bulk
retry loop; if it exhausted with not-found errors, a single id surfaces that
error while two or more ids fall back to individual termination. -/
def terminateInstances (bulk : List (Option Err)) (single : String → Option Err)
    (ids : List String) : TermOut :=
  if ids.isEmpty then ⟨none, []⟩
  else match runBulk bulk with
    | .early r n => ⟨r, List.replicate n ids⟩
    | .exhausted e n =>
        if ids.length = 1 then ⟨some e, List.replicate n ids⟩
        else ⟨termFallback single ids none,
              List.replicate n ids ++ ids.map fun id => [id]⟩

/-! ## gatherInstances / Instances -/

/-- The ids whose slot is still nil, in input order (the `need` slice). -/
def gatherNeed (ids : List String) (insts : List (Option EC2Instance)) : List String :=
  (ids.zip insts).filterMap fun p => if p.2 = none then some p.1 else none

/-- One slot of the fill loop of `gatherInstances`: a non-nil slot is
skipped; a nil slot scans the whole response, each matching instance
overwriting the slot and counting once (so the slot ends at the last match
and the count is the number of matches). -/
def fillSlot (resp : List EC2Instance) (id : String) (slot : Option EC2Instance) :
    Option EC2Instance × Nat :=
  match slot with
  | some inst => (some inst, 0)
  | none =>
      resp.foldl (fun acc r => if r.instanceId = id then (some r, acc.2 + 1) else acc)
        (none, 0)

/-- `gatherInstances`: fill the nil slots of `insts` from one filtered
listing call whose response is `resp`.  With no nil slot the call returns
at once; a listing error is returned as-is; otherwise the pass returns
`ErrMissingInstance` exactly when the number `n` of fills made in this pass
is below `len(ids)`. -/
def gatherInstances (resp : Except Err (List EC2Instance)) (ids : List String)
    (insts : List (Option EC2Instance)) : List (Option EC2Instance) × Option Err :=
  let need := gatherNeed ids insts
  if need.isEmpty then (insts, none)
  else match resp with
    | .error e => (insts, some e)
    | .ok rs =>
        let filled := List.zipWith (fillSlot rs) ids insts
        let insts2 := filled.map Prod.fst
        let n := (filled.map Prod.snd).sum
        (insts2, if n < ids.length then some .missingInstance else none)

/-- The retry loop of `Instances`: run `gatherInstances` once per attempt,
stopping early on success or on any error other than `ErrMissingInstance`;
on budget exhaustion the last pass's outcome stands. -/
def instancesLoop (ids : List String) :
    List (Except Err (List EC2Instance)) → List (Option EC2Instance) →
    List (Option EC2Instance) × Option Err
  | [], insts => (insts, some .missingInstance)
  | r :: rs, insts =>
      let out := gatherInstances r ids insts
      if out.2 = none ∨ out.2 ≠ some .missingInstance then out
      else match rs with
        | [] => out
        | _ :: _ => instancesLoop ids rs out.1

/-- `Instances`: empty input returns `(nil, nil)`; otherwise the slot array
starts all-nil and is grown by the retry loop; the array is returned (with
whatever error the loop ended with) only when at least one slot is filled,
else no results are returned. -/
def Instances (resps : List (Except Err (List EC2Instance))) (ids : List String) :
    Option (List (Option EC2Instance)) × Option Err :=
  if ids.isEmpty then (none, none)
  else
    let out := instancesLoop ids resps (List.replicate ids.length none)
    if out.1.any Option.isSome then (some out.1, out.2) else (none, out.2)

/-! ## startInstance -/

/-- The `RunInstances` retry loop of `startInstance` over the results the
successive calls would return: stop at the first success or at the first
error whose code is not `InvalidGroup.NotFound`; count the calls made. -/
def runInstLoop : List (Except Err (List EC2Instance)) →
    Except Err (List EC2Instance) × Nat
  | [] => (.error (.ec2 "InvalidGroup.NotFound" ""), 0)
  | r :: rs =>
      match r with
      | .ok v => (.ok v, 1)
      | .error e =>
          if ec2ErrCode (some e) ≠ "InvalidGroup.NotFound" then (.error e, 1)
          else match rs with
            | [] => (.error e, 1)
            | _ :: _ =>
                let out := runInstLoop rs
                (out.1, out.2 + 1)

/-- Result of `startInstance` plus the number of `RunInstances` calls
made. -/
structure StartOut where
  result : Except Err EC2Instance
  runCalls : Nat
  deriving Repr

/-- The checks `startInstance` performs after its retry loop: a surviving
error is wrapped, and a successful response must carry exactly one
instance. -/
def startWrap : Except Err (List EC2Instance) → Except Err EC2Instance
  | .error e => .error (.other ("cannot run instances: " ++ errText e))
  | .ok [inst] => .ok inst
  | .ok l => .error (.other ("expected 1 started instance, got " ++ toString l.length))

/-- `startInstance`: find the image, set up the two groups, then run the
retried `RunInstances` request and apply the post-loop checks. -/
def startInstance (imageResult : Except Err String)
    (groupsResult : Except Err (List SecurityGroup))
    (runResults : List (Except Err (List EC2Instance))) : StartOut :=
  match imageResult with
  | .error e => ⟨.error (.other ("cannot find image: " ++ errText e)), 0⟩
  | .ok _ =>
      match groupsResult with
      | .error e => ⟨.error (.other ("cannot set up groups: " ++ errText e)), 0⟩
      | .ok _ => ⟨startWrap (runInstLoop runResults).1, (runInstLoop runResults).2⟩

/-! ## Destroy -/

/-- The second loop of `Destroy`: append each caller-supplied id that is not
yet in the `found` set, marking it found (so duplicates among the
caller-supplied ids are also skipped). -/
def addMissing (ids found : List String) : List String → List String
  | [] => ids
  | x :: rest =>
      if x ∈ found then addMissing ids found rest
      else addMissing (ids ++ [x]) (x :: found) rest

/-- The id list `Destroy` passes to `terminateInstances`: the listing's ids
in order, then every caller-supplied id not present in the listing. -/
def destroyIds (listing : List String) (insts : List String) : List String :=
  addMissing listing listing insts

/-- Observable outcome of `Destroy`: its returned error, the id list handed
to `terminateInstances` (`none` = termination never reached), and whether
`deleteState` was attempted. -/
structure DestroyOut where
  result : Option Err
  terminateCall : Option (List String)
  deleteAttempted : Bool
  deriving DecidableEq, Repr

/-- `Destroy`: list the group's instances (ids in `listResult`), union in
the caller-supplied ids, terminate, and only then delete the persisted
state; a termination error is returned with the state untouched. -/
def Destroy (listResult : Except Err (List String)) (insts : List String)
    (termResult : Option Err) (deleteResult : Option Err) : DestroyOut :=
  match listResult with
  | .error e => ⟨some (.other ("cannot get instances: " ++ errText e)), none, false⟩
  | .ok listing =>
      let ids := destroyIds listing insts
      match termResult with
      | some e => ⟨some e, some ids, false⟩
      | none =>
          match deleteResult with
          | some e => ⟨some e, some ids, true⟩
          | none => ⟨none, some ids, true⟩

/-- The first result among `results` that the individual-termination
fallback of `terminateInstances` does not swallow (successes and not-found
errors are skipped).  Spec-side characterization used to state claim C4. -/
def firstRealErr : List (Option Err) → Option Err
  | [] => none
  | r :: rest =>
      if r = none ∨ ec2ErrCode r = "InvalidInstanceID.NotFound" then firstRealErr rest
      else r

/-- The concrete ssh rule `setUpGroups` requests (tcp port 22 from
anywhere); used by witnesses. -/
def sshRule : IPPerm :=
  { protocol := "tcp", fromPort := 22, toPort := 22, sourceIPs := ["0.0.0.0/0"] }

/-! ## Theorems -/

/-- Claim C1, counterexample: a load failure that is not an S3-typed error
(here a deserialization failure, an error built by `fmt.Errorf`/`json`) does
not abort `Bootstrap` as the claim requires: the code proceeds to start an
instance and does not return the load error. -/
theorem bootstrap_nonS3LoadError_proceeds :
    (Bootstrap (.error (Err.other "unmarshal failed"))
        (.ok { instanceId := "i-0" }) none none).startAttempted = true ∧
      (Bootstrap (.error (Err.other "unmarshal failed"))
        (.ok { instanceId := "i-0" }) none none).result = none :=
  ⟨rfl, rfl⟩

/-- Claim C1 as amended: if the load succeeds, `Bootstrap` fails with the
"already bootstrapped" error without starting any instance; if the load
fails with an S3 error of status 404 it proceeds; if the load fails with an
S3 error of any other status it aborts returning that error without
starting an instance; but a load failure that is not an S3-typed error
(e.g. a deserialization failure) is treated like not-found and `Bootstrap`
proceeds. -/
theorem bootstrap_load_state_handling
    (st : bootstrapState) (startResult : Except Err EC2Instance)
    (saveResult stopResult : Option Err) :
    ((Bootstrap (.ok st) startResult saveResult stopResult).result =
        some (.other "environment is already bootstrapped") ∧
      (Bootstrap (.ok st) startResult saveResult stopResult).startAttempted = false) ∧
    (∀ status msg, status ≠ 404 →
      Bootstrap (.error (.s3 status msg)) startResult saveResult stopResult =
        ⟨some (.s3 status msg), false, []⟩) ∧
    (∀ msg,
      (Bootstrap (.error (.s3 404 msg)) startResult saveResult stopResult).startAttempted = true) ∧
    (∀ msg,
      (Bootstrap (.error (.other msg)) startResult saveResult stopResult).startAttempted = true) := by
  refine ⟨⟨rfl, rfl⟩, ?_, ?_, ?_⟩
  · intro status msg h
    simp [Bootstrap, bootstrapLoadAborts, h]
  · intro msg
    cases startResult with
    | error e => simp [Bootstrap, bootstrapLoadAborts]
    | ok inst =>
        cases saveResult <;> simp [Bootstrap, bootstrapLoadAborts]
  · intro msg
    cases startResult with
    | error e => simp [Bootstrap, bootstrapLoadAborts]
    | ok inst =>
        cases saveResult <;> simp [Bootstrap, bootstrapLoadAborts]

/-- Witness for `bootstrap_load_state_handling` at a concrete input. -/
theorem bootstrap_load_state_handling_witness :
    Bootstrap (.error (.s3 403 "forbidden")) (.ok { instanceId := "i-0" })
        none none = ⟨some (.s3 403 "forbidden"), false, []⟩ :=
  (bootstrap_load_state_handling ⟨[]⟩ (.ok { instanceId := "i-0" }) none none).2.1
    403 "forbidden" (by decide)

/-- Claim C8: if `Bootstrap` successfully starts an instance and persisting
the state fails, it stops the just-started instance exactly once, ignores
the cleanup call's outcome (the equation holds for every `stopResult`), and
returns the original persistence error. -/
theorem bootstrap_cleanup_on_save_failure
    (loadErr : Err) (hload : bootstrapLoadAborts loadErr = false)
    (inst : EC2Instance) (saveErr : Err) (stopResult : Option Err) :
    Bootstrap (.error loadErr) (.ok inst) (some saveErr) stopResult =
      ⟨some saveErr, true, [[inst.instanceId]]⟩ := by
  simp [Bootstrap, hload]

/-- Witness for `bootstrap_cleanup_on_save_failure` at a concrete input
(with a failing cleanup call, whose error is ignored). -/
theorem bootstrap_cleanup_on_save_failure_witness :
    Bootstrap (.error (.s3 404 "not found")) (.ok { instanceId := "i-9" })
        (some (.other "put failed")) (some (.other "stop failed")) =
      ⟨some (.other "put failed"), true, [["i-9"]]⟩ :=
  bootstrap_cleanup_on_save_failure (.s3 404 "not found") (by decide)
    { instanceId := "i-9" } (.other "put failed") (some (.other "stop failed"))

/-- The single permission key produced by round-tripping one key through
`ipPermsOfKeys` and `permKeysOf`, provided the key does not carry both a
group id and an IP address. -/
theorem permKeysOf_single (k : permKey) (h : ¬(k.groupId ≠ "" ∧ k.ipAddr ≠ "")) :
    (ipPermsOfKeys [k]).flatMap permKeysOf = [k] := by
  obtain ⟨pr, fp, tp, gid, ip⟩ := k
  by_cases hip : ip = ""
  · subst hip
    simp [ipPermsOfKeys, permKeysOf]
  · have hg : gid = "" := by
      by_contra hg
      exact h ⟨hg, hip⟩
    subst hg
    simp [ipPermsOfKeys, permKeysOf, hip]

/-- Claim C10: for every permission set in which no key carries both a
source group id and a source IP address, converting it to IP permissions
via `ipPerms` and flattening back with `newPermSet` recovers exactly the
same set (the set is given by any enumeration `keys` of its elements, as
the Go map iteration would produce). -/
theorem newPermSet_ipPerms_roundtrip (keys : List permKey)
    (h : ∀ k ∈ keys, ¬(k.groupId ≠ "" ∧ k.ipAddr ≠ "")) :
    newPermSet (ipPermsOfKeys keys) = keys.toFinset := by
  induction keys with
  | nil => simp [newPermSet, ipPermsOfKeys]
  | cons k rest ih =>
      have hk := h k (List.mem_cons_self k rest)
      have hrest : ∀ k2 ∈ rest, ¬(k2.groupId ≠ "" ∧ k2.ipAddr ≠ "") :=
        fun k2 hk2 => h k2 (List.mem_cons_of_mem k hk2)
      have hcons : ipPermsOfKeys (k :: rest) =
          ipPermsOfKeys [k] ++ ipPermsOfKeys rest := by
        simp [ipPermsOfKeys]
      have hflat : (ipPermsOfKeys (k :: rest)).flatMap permKeysOf =
          k :: (ipPermsOfKeys rest).flatMap permKeysOf := by
        rw [hcons, List.flatMap_append, permKeysOf_single k hk]
        rfl
      have := ih hrest
      simp only [newPermSet] at this ⊢
      rw [hflat, List.toFinset_cons, this, List.toFinset_cons]

/-- Witness for `newPermSet_ipPerms_roundtrip` at a concrete two-rule
set. -/
theorem newPermSet_ipPerms_roundtrip_witness :
    newPermSet (ipPermsOfKeys
        [{ protocol := "tcp", fromPort := 22, toPort := 22, groupId := "", ipAddr := "0.0.0.0/0" },
         { protocol := "tcp", fromPort := 2181, toPort := 2181, groupId := "sg-1", ipAddr := "" }]) =
      ([{ protocol := "tcp", fromPort := 22, toPort := 22, groupId := "", ipAddr := "0.0.0.0/0" },
        { protocol := "tcp", fromPort := 2181, toPort := 2181, groupId := "sg-1", ipAddr := "" }] :
          List permKey).toFinset :=
  newPermSet_ipPerms_roundtrip _ (by decide)

/-- Claim C2: against an existing group whose current flattened rules are
`A = newPermSet curRules`, an `ensureGroup` call with desired rules
flattening to `B = newPermSet perms` issues one revoke call carrying
exactly `A \ B` (none when that set is empty) and, the revoke having
succeeded, one authorize call carrying exactly `B \ A` (none when empty);
in particular when the current rules already flatten to exactly `B`, no
revoke and no authorize call is issued. -/
theorem ensureGroup_minimal_diff
    (dupMsg : String) (g : SecurityGroup) (curRules perms : List IPPerm)
    (authorizeResult : Option Err) :
    (ensureGroup
        ⟨.error (.ec2 "InvalidGroup.Duplicate" dupMsg), .ok ⟨g, curRules⟩,
          none, authorizeResult⟩ perms).revokeCall =
      (if newPermSet curRules \ newPermSet perms = ∅ then none
        else some (newPermSet curRules \ newPermSet perms)) ∧
    (ensureGroup
        ⟨.error (.ec2 "InvalidGroup.Duplicate" dupMsg), .ok ⟨g, curRules⟩,
          none, authorizeResult⟩ perms).authorizeCall =
      (if newPermSet perms \ newPermSet curRules = ∅ then none
        else some (newPermSet perms \ newPermSet curRules)) ∧
    (newPermSet curRules = newPermSet perms →
      (ensureGroup
          ⟨.error (.ec2 "InvalidGroup.Duplicate" dupMsg), .ok ⟨g, curRules⟩,
            none, authorizeResult⟩ perms).revokeCall = none ∧
        (ensureGroup
            ⟨.error (.ec2 "InvalidGroup.Duplicate" dupMsg), .ok ⟨g, curRules⟩,
              none, authorizeResult⟩ perms).authorizeCall = none) := by
  have hmain : ∀ want cur : permSet,
      (ensureGroupApply
          ⟨.error (.ec2 "InvalidGroup.Duplicate" dupMsg), .ok ⟨g, curRules⟩,
            none, authorizeResult⟩ want cur g).revokeCall =
        (if cur \ want = ∅ then none else some (cur \ want)) ∧
      (ensureGroupApply
          ⟨.error (.ec2 "InvalidGroup.Duplicate" dupMsg), .ok ⟨g, curRules⟩,
            none, authorizeResult⟩ want cur g).authorizeCall =
        (if want \ cur = ∅ then none else some (want \ cur)) := by
    intro want cur
    by_cases hrev : cur \ want = ∅ <;> by_cases hadd : want \ cur = ∅ <;>
      cases authorizeResult <;> simp [ensureGroupApply, hrev, hadd]
  have hunfold :
      ensureGroup
          ⟨.error (.ec2 "InvalidGroup.Duplicate" dupMsg), .ok ⟨g, curRules⟩,
            none, authorizeResult⟩ perms =
        ensureGroupApply
          ⟨.error (.ec2 "InvalidGroup.Duplicate" dupMsg), .ok ⟨g, curRules⟩,
            none, authorizeResult⟩ (newPermSet perms) (newPermSet curRules) g := by
    simp [ensureGroup, ec2ErrCode]
  rw [hunfold]
  refine ⟨(hmain _ _).1, (hmain _ _).2, fun heq => ?_⟩
  rw [(hmain _ _).1, (hmain _ _).2, heq]
  simp

/-- Witness for `ensureGroup_minimal_diff`: a group whose current rules
already match the desired rules gets neither a revoke nor an authorize
call. -/
theorem ensureGroup_minimal_diff_witness :
    (ensureGroup
        ⟨.error (.ec2 "InvalidGroup.Duplicate" ""),
          .ok ⟨{ id := "sg-1" }, [sshRule]⟩, none, none⟩
        [sshRule]).revokeCall = none ∧
    (ensureGroup
        ⟨.error (.ec2 "InvalidGroup.Duplicate" ""),
          .ok ⟨{ id := "sg-1" }, [sshRule]⟩, none, none⟩
        [sshRule]).authorizeCall = none :=
  (ensureGroup_minimal_diff "" { id := "sg-1" } [sshRule] [sshRule] none).2.2 rfl

/-- Membership in the result of `addMissing`: with the `found` set tracking
exactly the elements of `ids`, the outcome holds exactly the elements of
`ids` and of the appended list. -/
theorem addMissing_mem (insts : List String) :
    ∀ ids found : List String, (∀ x, x ∈ found ↔ x ∈ ids) →
      ∀ y, y ∈ addMissing ids found insts ↔ y ∈ ids ∨ y ∈ insts := by
  induction insts with
  | nil =>
      intro ids found _ y
      simp [addMissing]
  | cons x rest ih =>
      intro ids found hiff y
      simp only [addMissing]
      by_cases hx : x ∈ found
      · rw [if_pos hx, ih ids found hiff y]
        have hxids : x ∈ ids := (hiff x).1 hx
        constructor
        · rintro (h | h)
          · exact Or.inl h
          · exact Or.inr (List.mem_cons_of_mem x h)
        · rintro (h | h)
          · exact Or.inl h
          · rcases List.mem_cons.1 h with rfl | h2
            · exact Or.inl hxids
            · exact Or.inr h2
      · rw [if_neg hx]
        have hiff2 : ∀ z, z ∈ x :: found ↔ z ∈ ids ++ [x] := by
          intro z
          simp only [List.mem_cons, List.mem_append, List.mem_singleton, hiff z]
          tauto
        rw [ih (ids ++ [x]) (x :: found) hiff2 y]
        simp only [List.mem_append, List.mem_singleton, List.mem_cons]
        tauto

/-- `addMissing` preserves freedom from duplicates. -/
theorem addMissing_nodup (insts : List String) :
    ∀ ids found : List String, (∀ x, x ∈ found ↔ x ∈ ids) → ids.Nodup →
      (addMissing ids found insts).Nodup := by
  induction insts with
  | nil =>
      intro ids found _ hnd
      exact hnd
  | cons x rest ih =>
      intro ids found hiff hnd
      simp only [addMissing]
      by_cases hx : x ∈ found
      · rw [if_pos hx]
        exact ih ids found hiff hnd
      · rw [if_neg hx]
        have hxids : x ∉ ids := fun h => hx ((hiff x).2 h)
        have hiff2 : ∀ z, z ∈ x :: found ↔ z ∈ ids ++ [x] := by
          intro z
          simp only [List.mem_cons, List.mem_append, List.mem_singleton, hiff z]
          tauto
        have hnd2 : (ids ++ [x]).Nodup := by
          simp [List.nodup_append, hnd, hxids]
        exact ih (ids ++ [x]) (x :: found) hiff2 hnd2

/-- Claim C3: `Destroy` hands `terminateInstances` exactly the
duplicate-free union of the listing's ids and the caller-supplied ids; it
attempts `deleteState` only when termination succeeded, and on a
termination error it returns that error with the state untouched. -/
theorem destroy_union_then_delete
    (listing : List String) (hnd : listing.Nodup) (insts : List String)
    (termResult deleteResult : Option Err) :
    (∃ ids, (Destroy (.ok listing) insts termResult deleteResult).terminateCall = some ids ∧
      (∀ y, y ∈ ids ↔ y ∈ listing ∨ y ∈ insts) ∧ ids.Nodup) ∧
    (∀ e, termResult = some e →
      (Destroy (.ok listing) insts termResult deleteResult).result = some e ∧
        (Destroy (.ok listing) insts termResult deleteResult).deleteAttempted = false) ∧
    (termResult = none →
      (Destroy (.ok listing) insts termResult deleteResult).deleteAttempted = true) := by
  have hids : ∀ y, y ∈ destroyIds listing insts ↔ y ∈ listing ∨ y ∈ insts :=
    addMissing_mem insts listing listing (fun _ => Iff.rfl)
  have hndids : (destroyIds listing insts).Nodup :=
    addMissing_nodup insts listing listing (fun _ => Iff.rfl) hnd
  refine ⟨⟨destroyIds listing insts, ?_, hids, hndids⟩, ?_, ?_⟩
  · cases termResult with
    | none => cases deleteResult <;> rfl
    | some e => rfl
  · intro e he
    subst he
    exact ⟨rfl, rfl⟩
  · intro he
    subst he
    cases deleteResult <;> exact rfl

/-- Witness for `destroy_union_then_delete`: a listing {A,B} plus a
caller-known instance C terminates exactly A,B,C and then deletes the
state; a failing termination leaves the state untouched. -/
theorem destroy_union_then_delete_witness :
    (Destroy (.ok ["i-a", "i-b"]) ["i-c"] none none).terminateCall =
        some ["i-a", "i-b", "i-c"] ∧
      (Destroy (.ok ["i-a", "i-b"]) ["i-c"] none none).deleteAttempted = true ∧
      (Destroy (.ok ["i-a", "i-b"]) ["i-c"] (some (.other "boom")) none).deleteAttempted = false :=
  ⟨rfl,
    (destroy_union_then_delete ["i-a", "i-b"] (by decide) ["i-c"] none none).2.2 rfl,
    ((destroy_union_then_delete ["i-a", "i-b"] (by decide) ["i-c"]
        (some (.other "boom")) none).2.1 (.other "boom") rfl).2⟩

/-- When every bulk attempt reports `InvalidInstanceID.NotFound`, the bulk
retry loop exhausts its budget, making one call per attempt and ending on
the last attempt's error. -/
theorem runBulk_all_notfound :
    ∀ (bulk : List (Option Err)) (hne : bulk ≠ []),
      (∀ r ∈ bulk, ec2ErrCode r = "InvalidInstanceID.NotFound") →
      ∃ e, bulk.getLast hne = some e ∧ runBulk bulk = .exhausted e bulk.length
  | [], hne, _ => absurd rfl hne
  | r :: rs, _, hnf => by
      have hr : ec2ErrCode r = "InvalidInstanceID.NotFound" := hnf r (List.mem_cons_self r rs)
      have hcond : ¬(r = none ∨ ec2ErrCode r ≠ "InvalidInstanceID.NotFound") := by
        rintro (h | h)
        · rw [h] at hr
          exact absurd hr (by decide)
        · exact h hr
      obtain ⟨e, rfl⟩ : ∃ e, r = some e := by
        cases r with
        | none => exact absurd (Or.inl rfl) hcond
        | some e => exact ⟨e, rfl⟩
      cases rs with
      | nil =>
          refine ⟨e, rfl, ?_⟩
          have hstep : runBulk [some e] =
              if some e = none ∨ ec2ErrCode (some e) ≠ "InvalidInstanceID.NotFound"
                then .early (some e) 1 else .exhausted e 1 := rfl
          rw [hstep, if_neg hcond]
          rfl
      | cons r2 rs2 =>
          have hnf2 : ∀ x ∈ r2 :: rs2, ec2ErrCode x = "InvalidInstanceID.NotFound" :=
            fun x hx => hnf x (List.mem_cons_of_mem _ hx)
          obtain ⟨e2, hlast, hrun⟩ :=
            runBulk_all_notfound (r2 :: rs2) (List.cons_ne_nil r2 rs2) hnf2
          refine ⟨e2, ?_, ?_⟩
          · rw [List.getLast_cons (List.cons_ne_nil r2 rs2)]
            exact hlast
          · have hstep : runBulk (some e :: r2 :: rs2) =
                if some e = none ∨ ec2ErrCode (some e) ≠ "InvalidInstanceID.NotFound"
                  then .early (some e) 1
                  else match runBulk (r2 :: rs2) with
                    | .early r n => .early r (n + 1)
                    | .exhausted e3 n => .exhausted e3 (n + 1) := rfl
            rw [hstep, if_neg hcond, hrun]
            simp

/-- Claim C9: for a single-id input whose every bulk attempt fails with the
not-found code, `terminateInstances` surfaces that not-found error (no
conversion to success) and makes no individual fallback call. -/
theorem terminateInstances_single_notfound
    (bulk : List (Option Err)) (hne : bulk ≠ [])
    (hnf : ∀ r ∈ bulk, ec2ErrCode r = "InvalidInstanceID.NotFound")
    (single : String → Option Err) (id : String) :
    ec2ErrCode (terminateInstances bulk single [id]).result = "InvalidInstanceID.NotFound" ∧
      (terminateInstances bulk single [id]).result ≠ none ∧
      (terminateInstances bulk single [id]).calls = List.replicate bulk.length [id] := by
  obtain ⟨e, hlast, hrun⟩ := runBulk_all_notfound bulk hne hnf
  have hres : terminateInstances bulk single [id] =
      ⟨some e, List.replicate bulk.length [id]⟩ := by
    simp [terminateInstances, hrun]
  rw [hres]
  have hcode : ec2ErrCode (some e) = "InvalidInstanceID.NotFound" := by
    have hmem := hnf (bulk.getLast hne) (List.getLast_mem hne)
    rwa [hlast] at hmem
  exact ⟨hcode, by simp, rfl⟩

/-- Witness for `terminateInstances_single_notfound` at a concrete
input. -/
theorem terminateInstances_single_notfound_witness :
    ec2ErrCode (terminateInstances [some (.ec2 "InvalidInstanceID.NotFound" "gone")]
          (fun _ => none) ["i-a"]).result = "InvalidInstanceID.NotFound" ∧
      (terminateInstances [some (.ec2 "InvalidInstanceID.NotFound" "gone")]
          (fun _ => none) ["i-a"]).result ≠ none ∧
      (terminateInstances [some (.ec2 "InvalidInstanceID.NotFound" "gone")]
          (fun _ => none) ["i-a"]).calls = List.replicate 1 ["i-a"] :=
  terminateInstances_single_notfound [some (.ec2 "InvalidInstanceID.NotFound" "gone")]
    (by decide) (by decide) (fun _ => none) "i-a"

/-- Once the one-at-a-time fallback has recorded an error it keeps it. -/
theorem termFallback_absorbed (single : String → Option Err) :
    ∀ (ids : List String) (e : Err), termFallback single ids (some e) = some e := by
  intro ids
  induction ids with
  | nil => intro e; rfl
  | cons id rest ih =>
      intro e
      have hstep : termFallback single (id :: rest) (some e) =
          termFallback single rest
            (if (if ec2ErrCode (single id) = "InvalidInstanceID.NotFound" then none
                  else single id) ≠ none ∧ (some e : Option Err) = none
              then (if ec2ErrCode (single id) = "InvalidInstanceID.NotFound" then none
                else single id)
              else some e) := rfl
      rw [hstep, if_neg ?_, ih]
      rintro ⟨-, h⟩
      exact Option.some_ne_none e h

/-- The fallback loop computes exactly the first non-swallowed individual
result. -/
theorem termFallback_eq_firstRealErr (single : String → Option Err) :
    ∀ ids : List String, termFallback single ids none = firstRealErr (ids.map single) := by
  intro ids
  induction ids with
  | nil => rfl
  | cons id rest ih =>
      have hstep : termFallback single (id :: rest) none =
          termFallback single rest
            (if (if ec2ErrCode (single id) = "InvalidInstanceID.NotFound" then none
                  else single id) ≠ none ∧ (none : Option Err) = none
              then (if ec2ErrCode (single id) = "InvalidInstanceID.NotFound" then none
                else single id)
              else none) := rfl
      rw [hstep]
      by_cases hsw : single id = none ∨ ec2ErrCode (single id) = "InvalidInstanceID.NotFound"
      · have he2 : (if ec2ErrCode (single id) = "InvalidInstanceID.NotFound" then none
            else single id) = none := by
          rcases hsw with h | h
          · by_cases h2 : ec2ErrCode (single id) = "InvalidInstanceID.NotFound"
            · rw [if_pos h2]
            · rw [if_neg h2, h]
          · rw [if_pos h]
        rw [he2, if_neg (by simp), ih]
        simp only [List.map_cons, firstRealErr]
        rw [if_pos hsw]
      · push_neg at hsw
        obtain ⟨e, he⟩ := Option.ne_none_iff_exists'.1 hsw.1
        have he2 : (if ec2ErrCode (single id) = "InvalidInstanceID.NotFound" then none
            else single id) = some e := by rw [if_neg hsw.2, he]
        rw [he2, if_pos ⟨Option.some_ne_none e, rfl⟩, termFallback_absorbed single rest e]
        simp only [List.map_cons, firstRealErr]
        rw [if_neg ?_]
        · exact he.symm
        · rintro (h | h)
          · exact hsw.1 h
          · exact hsw.2 h

/-- Claim C4: for two or more ids, when every bulk attempt fails with the
not-found code, `terminateInstances` falls back to one individual call per
id in input order (after the bulk calls) and returns the first individual
error that is neither success nor not-found (success when there is none). -/
theorem terminateInstances_multi_fallback
    (bulk : List (Option Err)) (hne : bulk ≠ [])
    (hnf : ∀ r ∈ bulk, ec2ErrCode r = "InvalidInstanceID.NotFound")
    (single : String → Option Err) (ids : List String) (hids : 2 ≤ ids.length) :
    (terminateInstances bulk single ids).result = firstRealErr (ids.map single) ∧
      (terminateInstances bulk single ids).calls =
        List.replicate bulk.length ids ++ ids.map fun id => [id] := by
  obtain ⟨e, _, hrun⟩ := runBulk_all_notfound bulk hne hnf
  have hlen : ids.length ≠ 1 := by omega
  have hne2 : ids.isEmpty = false := by
    cases ids with
    | nil => simp at hids
    | cons _ _ => rfl
  simp [terminateInstances, hrun, hne2, hlen, termFallback_eq_firstRealErr]

/-- Witness for `terminateInstances_multi_fallback`: one live id and one
already-terminated id give overall success (the not-found on the missing id
is swallowed). -/
theorem terminateInstances_multi_fallback_witness :
    (terminateInstances [some (.ec2 "InvalidInstanceID.NotFound" "")]
          (fun id => if id = "i-b" then some (.ec2 "InvalidInstanceID.NotFound" "gone") else none)
          ["i-a", "i-b"]).result =
        firstRealErr (["i-a", "i-b"].map
          (fun id => if id = "i-b" then some (.ec2 "InvalidInstanceID.NotFound" "gone") else none)) ∧
      (terminateInstances [some (.ec2 "InvalidInstanceID.NotFound" "")]
          (fun id => if id = "i-b" then some (.ec2 "InvalidInstanceID.NotFound" "gone") else none)
          ["i-a", "i-b"]).calls =
        List.replicate 1 ["i-a", "i-b"] ++ ["i-a", "i-b"].map fun id => [id] :=
  terminateInstances_multi_fallback [some (.ec2 "InvalidInstanceID.NotFound" "")]
    (by decide) (by decide)
    (fun id => if id = "i-b" then some (.ec2 "InvalidInstanceID.NotFound" "gone") else none)
    ["i-a", "i-b"] (by decide)

/-- Claim C7: the run-instances request is retried only on the
security-group-not-found error code: any other error stops the loop after
that call and aborts; a group-not-found error with budget remaining means
one more call and the rest of the loop; and a success stops the loop at
once, a response with a number of instances other than one then being an
error without any retry. -/
theorem startInstance_retry_policy
    (img : String) (grps : List SecurityGroup) (e : Err)
    (l : List EC2Instance) (rest : List (Except Err (List EC2Instance))) :
    (ec2ErrCode (some e) ≠ "InvalidGroup.NotFound" →
      startInstance (.ok img) (.ok grps) (.error e :: rest) =
        ⟨.error (.other ("cannot run instances: " ++ errText e)), 1⟩) ∧
    (ec2ErrCode (some e) = "InvalidGroup.NotFound" → rest ≠ [] →
      (startInstance (.ok img) (.ok grps) (.error e :: rest)).result =
          (startInstance (.ok img) (.ok grps) rest).result ∧
        (startInstance (.ok img) (.ok grps) (.error e :: rest)).runCalls =
          (startInstance (.ok img) (.ok grps) rest).runCalls + 1) ∧
    (startInstance (.ok img) (.ok grps) (.ok l :: rest)).runCalls = 1 ∧
    (l.length ≠ 1 →
      startInstance (.ok img) (.ok grps) (.ok l :: rest) =
        ⟨.error (.other ("expected 1 started instance, got " ++ toString l.length)), 1⟩) := by
  refine ⟨?_, ?_, ?_, ?_⟩
  · intro h
    simp [startInstance, runInstLoop, h, startWrap]
  · intro h hrest
    cases rest with
    | nil => exact absurd rfl hrest
    | cons r2 rs2 =>
        have hloop : runInstLoop (.error e :: r2 :: rs2) =
            ((runInstLoop (r2 :: rs2)).1, (runInstLoop (r2 :: rs2)).2 + 1) := by
          simp [runInstLoop, h]
        constructor
        · simp [startInstance, hloop]
        · simp [startInstance, hloop]
  · simp [startInstance, runInstLoop]
  · intro hlen
    have hwrap : startWrap (.ok l) =
        .error (.other ("expected 1 started instance, got " ++ toString l.length)) := by
      match l, hlen with
      | [], _ => rfl
      | [x], hlen => exact absurd rfl hlen
      | x :: y :: tl, _ => rfl
    simp [startInstance, runInstLoop, hwrap]

/-- Witness for `startInstance_retry_policy` at concrete inputs: a quota
error aborts after one call, and a successful response carrying two
instances is fatal after one call. -/
theorem startInstance_retry_policy_witness :
    startInstance (.ok "ami-1") (.ok []) [.error (.ec2 "QuotaExceeded" "limit")] =
        ⟨.error (.other ("cannot run instances: " ++ errText (.ec2 "QuotaExceeded" "limit"))), 1⟩ ∧
      startInstance (.ok "ami-1") (.ok [])
          [.ok [{ instanceId := "i-1" }, { instanceId := "i-2" }]] =
        ⟨.error (.other ("expected 1 started instance, got " ++ toString
          ([{ instanceId := "i-1" }, { instanceId := "i-2" }] : List EC2Instance).length)), 1⟩ :=
  ⟨(startInstance_retry_policy "ami-1" [] (.ec2 "QuotaExceeded" "limit") [] []).1 (by decide),
    (startInstance_retry_policy "ami-1" [] (.ec2 "QuotaExceeded" "limit")
        [{ instanceId := "i-1" }, { instanceId := "i-2" }] []).2.2.2 (by decide)⟩

/-- The fill count of a nil slot is the number of response entries carrying
the requested id (each match counts once, even with duplicate ids in the
response). -/
theorem fillSlot_fold_snd (id : String) :
    ∀ (resp : List EC2Instance) (acc : Option EC2Instance × Nat),
      (resp.foldl (fun acc r => if r.instanceId = id then (some r, acc.2 + 1) else acc) acc).2 =
        acc.2 + resp.countP (fun r => r.instanceId == id) := by
  intro resp
  induction resp with
  | nil =>
      intro acc
      simp
  | cons r rest ih =>
      intro acc
      simp only [List.foldl_cons, List.countP_cons]
      by_cases h : r.instanceId = id
      · rw [if_pos h, ih]
        have hb : (r.instanceId == id) = true := beq_iff_eq.2 h
        simp [hb]
        omega
      · rw [if_neg h, ih]
        have hb : (r.instanceId == id) = false := by
          simpa using h
        simp [hb]

/-- The slot resulting from scanning a response is filled exactly when the
response holds a matching entry. -/
theorem fillSlot_fold_fst_isSome (id : String) :
    ∀ (resp : List EC2Instance) (acc : Option EC2Instance × Nat),
      (resp.foldl (fun acc r => if r.instanceId = id then (some r, acc.2 + 1) else acc) acc).1.isSome =
        (acc.1.isSome || resp.any fun r => r.instanceId == id) := by
  intro resp
  induction resp with
  | nil =>
      intro acc
      simp
  | cons r rest ih =>
      intro acc
      simp only [List.foldl_cons, List.any_cons]
      by_cases h : r.instanceId = id
      · rw [if_pos h, ih]
        have hb : (r.instanceId == id) = true := beq_iff_eq.2 h
        simp [hb]
      · rw [if_neg h, ih]
        have hb : (r.instanceId == id) = false := by
          simpa using h
        simp [hb]

/-- A slot filled by scanning a response holds a response entry carrying
the requested id. -/
theorem fillSlot_fold_fst_mem (id : String) :
    ∀ (resp : List EC2Instance) (acc : Option EC2Instance × Nat) (v : EC2Instance),
      (resp.foldl (fun acc r => if r.instanceId = id then (some r, acc.2 + 1) else acc) acc).1 =
          some v →
        acc.1 = some v ∨ (v ∈ resp ∧ v.instanceId = id) := by
  intro resp
  induction resp with
  | nil =>
      intro acc v h
      exact Or.inl h
  | cons r rest ih =>
      intro acc v h
      simp only [List.foldl_cons] at h
      by_cases hr : r.instanceId = id
      · rw [if_pos hr] at h
        rcases ih _ v h with h2 | h2
        · rcases h2 with h2
          have : r = v := by
            injection h2
          subst this
          exact Or.inr ⟨List.mem_cons_self r rest, hr⟩
        · exact Or.inr ⟨List.mem_cons_of_mem r h2.1, h2.2⟩
      · rw [if_neg hr] at h
        rcases ih _ v h with h2 | h2
        · exact Or.inl h2
        · exact Or.inr ⟨List.mem_cons_of_mem r h2.1, h2.2⟩

/-- Fill count of a nil slot, stated on `fillSlot`. -/
theorem fillSlot_snd_of_none (resp : List EC2Instance) (id : String) :
    (fillSlot resp id none).2 = resp.countP (fun r => r.instanceId == id) := by
  have h := fillSlot_fold_snd id resp (none, 0)
  simpa [fillSlot] using h

/-- Filledness of a nil slot, stated on `fillSlot`. -/
theorem fillSlot_fst_isSome_of_none (resp : List EC2Instance) (id : String) :
    (fillSlot resp id none).1.isSome = resp.any (fun r => r.instanceId == id) := by
  have h := fillSlot_fold_fst_isSome id resp (none, 0)
  simpa [fillSlot] using h

/-- Provenance of a filled nil slot, stated on `fillSlot`. -/
theorem fillSlot_mem_of_none (resp : List EC2Instance) (id : String) (v : EC2Instance) :
    (fillSlot resp id none).1 = some v → v ∈ resp ∧ v.instanceId = id := by
  intro h
  have h2 := fillSlot_fold_fst_mem id resp (none, 0) v (by simpa [fillSlot] using h)
  rcases h2 with h2 | h2
  · exact absurd h2 (by simp)
  · exact h2

/-- A nil slot is filled exactly when its fill count is positive. -/
theorem fillSlot_isSome_iff_snd_pos (resp : List EC2Instance) (id : String) :
    (fillSlot resp id none).1.isSome = true ↔ 0 < (fillSlot resp id none).2 := by
  rw [fillSlot_fst_isSome_of_none, fillSlot_snd_of_none, List.any_eq_true,
    List.countP_pos_iff]

/-- A response listing each instance id at most once fills any slot at most
once. -/
theorem countP_id_le_one (resp : List EC2Instance)
    (hnd : (resp.map EC2Instance.instanceId).Nodup) (id : String) :
    resp.countP (fun r => r.instanceId == id) ≤ 1 := by
  have h1 : resp.countP (fun r => r.instanceId == id) =
      (resp.map EC2Instance.instanceId).countP (fun s => s == id) := by
    rw [List.countP_map]
    rfl
  rw [h1]
  have h2 := List.nodup_iff_count_le_one.1 hnd id
  simpa [List.count] using h2

/-- Every slot's fill count is at most one against a duplicate-free
response. -/
theorem fillSlot_snd_le_one (resp : List EC2Instance)
    (hnd : (resp.map EC2Instance.instanceId).Nodup) (id : String)
    (slot : Option EC2Instance) : (fillSlot resp id slot).2 ≤ 1 := by
  cases slot with
  | some v => simp [fillSlot]
  | none =>
      rw [fillSlot_snd_of_none]
      exact countP_id_le_one resp hnd id

/-- Total fill count of one gathering pass is bounded by the number of
requested ids. -/
theorem fills_sum_le (resp : List EC2Instance)
    (hnd : (resp.map EC2Instance.instanceId).Nodup) :
    ∀ (ids : List String) (insts : List (Option EC2Instance)),
      ((List.zipWith (fillSlot resp) ids insts).map Prod.snd).sum ≤ ids.length := by
  intro ids
  induction ids with
  | nil =>
      intro insts
      simp
  | cons id ids2 ih =>
      intro insts
      cases insts with
      | nil => simp
      | cons sl insts2 =>
          simp only [List.zipWith_cons_cons, List.map_cons, List.sum_cons, List.length_cons]
          have hc := fillSlot_snd_le_one resp hnd id sl
          have hrest := ih insts2
          omega

/-- If one pass fills as many slots as there are ids (against a
duplicate-free response), every slot ends up filled. -/
theorem fills_sum_ge_all_filled (resp : List EC2Instance)
    (hnd : (resp.map EC2Instance.instanceId).Nodup) :
    ∀ (ids : List String) (insts : List (Option EC2Instance)),
      insts.length = ids.length →
      ids.length ≤ ((List.zipWith (fillSlot resp) ids insts).map Prod.snd).sum →
      ∀ s ∈ (List.zipWith (fillSlot resp) ids insts).map Prod.fst, s.isSome = true := by
  intro ids
  induction ids with
  | nil =>
      intro insts _ _ s hs
      simp at hs
  | cons id ids2 ih =>
      intro insts hlen hsum s hs
      cases insts with
      | nil => simp at hlen
      | cons sl insts2 =>
          simp only [List.zipWith_cons_cons, List.map_cons, List.sum_cons,
            List.length_cons] at hsum hs
          have hc := fillSlot_snd_le_one resp hnd id sl
          have hrest_le := fills_sum_le resp hnd ids2 insts2
          have hrest : ids2.length ≤
              ((List.zipWith (fillSlot resp) ids2 insts2).map Prod.snd).sum := by omega
          rcases List.mem_cons.1 hs with rfl | hs
          · cases hsl : sl with
            | some v => simp [fillSlot, hsl]
            | none =>
                rw [fillSlot_isSome_iff_snd_pos]
                rw [hsl] at hc hsum
                omega
          · have hlen2 : insts2.length = ids2.length := by
              simpa using hlen
            exact ih insts2 hlen2 hrest s hs

/-- Against a duplicate-free response and an all-nil slot array, the pass
fills fewer slots than there are ids exactly when some slot stays nil. -/
theorem fills_sum_lt_iff_missing (resp : List EC2Instance)
    (hnd : (resp.map EC2Instance.instanceId).Nodup) :
    ∀ (ids : List String) (insts : List (Option EC2Instance)),
      insts.length = ids.length → (∀ s ∈ insts, s = none) →
      (((List.zipWith (fillSlot resp) ids insts).map Prod.snd).sum < ids.length ↔
        ∃ s ∈ (List.zipWith (fillSlot resp) ids insts).map Prod.fst, s = none) := by
  intro ids
  induction ids with
  | nil =>
      intro insts hlen _
      have : insts = [] := List.length_eq_zero.1 hlen
      subst this
      simp
  | cons id ids2 ih =>
      intro insts hlen hnil
      cases insts with
      | nil => simp at hlen
      | cons sl insts2 =>
          have hsl : sl = none := hnil sl (List.mem_cons_self sl insts2)
          subst hsl
          have hnil2 : ∀ s ∈ insts2, s = none :=
            fun s hs => hnil s (List.mem_cons_of_mem none hs)
          have hlen2 : insts2.length = ids2.length := by
            simpa using hlen
          have hih := ih insts2 hlen2 hnil2
          simp only [List.zipWith_cons_cons, List.map_cons, List.sum_cons, List.length_cons]
          have hc := fillSlot_snd_le_one resp hnd id none
          have hrest_le := fills_sum_le resp hnd ids2 insts2
          by_cases hc0 : (fillSlot resp id none).2 = 0
          · have hhead : (fillSlot resp id none).1 = none := by
              have h1 := fillSlot_isSome_iff_snd_pos resp id
              rcases h : (fillSlot resp id none).1 with _ | v
              · rfl
              · rw [h] at h1
                simp at h1
                omega
            constructor
            · intro _
              exact ⟨(fillSlot resp id none).1, List.mem_cons_self _ _, hhead⟩
            · intro _
              omega
          · have hc1 : (fillSlot resp id none).2 = 1 := by omega
            have hhead : (fillSlot resp id none).1 ≠ none := by
              have h1 := (fillSlot_isSome_iff_snd_pos resp id).2 (by omega)
              intro h
              rw [h] at h1
              simp at h1
            constructor
            · intro hlt
              have : ((List.zipWith (fillSlot resp) ids2 insts2).map Prod.snd).sum <
                  ids2.length := by omega
              obtain ⟨s, hs, hsn⟩ := hih.1 this
              exact ⟨s, List.mem_cons_of_mem _ hs, hsn⟩
            · rintro ⟨s, hs, hsn⟩
              rcases List.mem_cons.1 hs with rfl | hs2
              · exact absurd hsn hhead
              · have := hih.2 ⟨s, hs2, hsn⟩
                omega

/-- The `need` slice is empty exactly when no slot is nil (for matching
lengths). -/
theorem gatherNeed_nil_iff (ids : List String) (insts : List (Option EC2Instance))
    (hlen : insts.length = ids.length) :
    gatherNeed ids insts = [] ↔ ∀ s ∈ insts, s ≠ none := by
  unfold gatherNeed
  rw [List.filterMap_eq_nil_iff]
  constructor
  · intro h s hs
    have hmap : (ids.zip insts).map Prod.snd = insts :=
      List.map_snd_zip ids insts (le_of_eq hlen)
    rw [← hmap] at hs
    obtain ⟨p, hp, hps⟩ := List.mem_map.1 hs
    have := h p hp
    intro hsn
    rw [← hps] at hsn
    rw [if_pos hsn] at this
    exact Option.some_ne_none _ this
  · intro h p hp
    have hsnd : p.2 ∈ insts := List.of_mem_zip hp |>.2
    rw [if_neg (h p.2 hsnd)]

/-- `gatherInstances` with no nil slot returns at once. -/
theorem gatherInstances_need_nil (resp : Except Err (List EC2Instance))
    (ids : List String) (insts : List (Option EC2Instance))
    (h : gatherNeed ids insts = []) :
    gatherInstances resp ids insts = (insts, none) := by
  simp [gatherInstances, h]

/-- `gatherInstances` on a successful listing with at least one nil slot:
the slots come from the fill pass and the missing signal from the fill
count. -/
theorem gatherInstances_ok_of_need (resp : List EC2Instance)
    (ids : List String) (insts : List (Option EC2Instance))
    (h : gatherNeed ids insts ≠ []) :
    gatherInstances (.ok resp) ids insts =
      ((List.zipWith (fillSlot resp) ids insts).map Prod.fst,
        if ((List.zipWith (fillSlot resp) ids insts).map Prod.snd).sum < ids.length
          then some .missingInstance else none) := by
  simp [gatherInstances, h]

/-- `gatherInstances` on a failed listing call returns the slots unchanged
with that error. -/
theorem gatherInstances_error_of_need (e : Err)
    (ids : List String) (insts : List (Option EC2Instance))
    (h : gatherNeed ids insts ≠ []) :
    gatherInstances (.error e) ids insts = (insts, some e) := by
  simp [gatherInstances, h]

/-- Claim C6, counterexample: a pass that fills the one remaining nil slot
of a partially pre-filled array returns the missing-instance signal even
though every slot of `insts` is filled afterwards (the pass counts only the
slots it filled itself against `len(ids)`). -/
theorem gather_full_yet_missing :
    (gatherInstances (.ok [{ instanceId := "i-b" }]) ["i-a", "i-b"]
        [some { instanceId := "i-a" }, none]).2 = some Err.missingInstance ∧
      ∀ s ∈ (gatherInstances (.ok [{ instanceId := "i-b" }]) ["i-a", "i-b"]
        [some { instanceId := "i-a" }, none]).1, s ≠ none := by
  exact ⟨rfl, by decide⟩

/-- Claim C6 as amended: for matching lengths and a response listing each
instance id at most once, a gathering pass writes only slots that were nil
on entry, fills a slot only with a response instance whose id is the
requested id for that position, and returns success only with every slot
filled; when additionally every slot was nil on entry, the missing signal
comes exactly when some slot is still nil after the pass (with pre-filled
slots the signal can also come with every slot filled, as the
counterexample shows). -/
theorem gather_slot_discipline (resp : List EC2Instance) (ids : List String)
    (insts : List (Option EC2Instance)) (hlen : insts.length = ids.length)
    (hnd : (resp.map EC2Instance.instanceId).Nodup) :
    (gatherInstances (.ok resp) ids insts).1.length = insts.length ∧
    (∀ (i : Nat) (v : EC2Instance), insts[i]? = some (some v) →
      (gatherInstances (.ok resp) ids insts).1[i]? = some (some v)) ∧
    (∀ (i : Nat) (v : EC2Instance),
      (gatherInstances (.ok resp) ids insts).1[i]? = some (some v) →
      insts[i]? = some (some v) ∨
        (v ∈ resp ∧ ∃ a, ids[i]? = some a ∧ v.instanceId = a)) ∧
    ((gatherInstances (.ok resp) ids insts).2 = none →
      ∀ s ∈ (gatherInstances (.ok resp) ids insts).1, s ≠ none) ∧
    ((∀ s ∈ insts, s = none) →
      ((gatherInstances (.ok resp) ids insts).2 = some Err.missingInstance ↔
        ∃ s ∈ (gatherInstances (.ok resp) ids insts).1, s = none)) := by
  by_cases hneed : gatherNeed ids insts = []
  · rw [gatherInstances_need_nil _ _ _ hneed]
    refine ⟨rfl, fun i v h => h, fun i v h => Or.inl h, ?_, ?_⟩
    · intro _ s hs
      exact (gatherNeed_nil_iff ids insts hlen).1 hneed s hs
    · intro hnil
      constructor
      · intro h
        exact absurd h (by simp)
      · rintro ⟨s, hs, hsn⟩
        exact absurd hsn ((gatherNeed_nil_iff ids insts hlen).1 hneed s hs)
  · rw [gatherInstances_ok_of_need resp ids insts hneed]
    refine ⟨?_, ?_, ?_, ?_, ?_⟩
    · simp [List.length_zipWith, hlen]
    · intro i v hi
      have hlt : i < insts.length := by
        rcases List.getElem?_eq_some.1 hi with ⟨h, -⟩
        exact h
      have hlt2 : i < ids.length := hlen ▸ hlt
      have hzip : (List.zipWith (fillSlot resp) ids insts)[i]? =
          some (fillSlot resp ids[i] (some v)) := by
        rw [List.getElem?_zipWith_eq_some]
        exact ⟨ids[i], some v, List.getElem?_eq_getElem hlt2, hi, rfl⟩
      rw [List.getElem?_map, hzip]
      rfl
    · intro i v h
      rw [List.getElem?_map] at h
      obtain ⟨pr, hpr, hpr1⟩ := Option.map_eq_some'.1 h
      obtain ⟨a, b, ha, hb, hf⟩ := List.getElem?_zipWith_eq_some.1 hpr
      cases b with
      | some w =>
          have : pr = (some w, 0) := by rw [← hf]; rfl
          rw [this] at hpr1
          have : w = v := by injection hpr1
          subst this
          exact Or.inl hb
      | none =>
          have hmem := fillSlot_mem_of_none resp a v (by rw [hf]; exact hpr1)
          exact Or.inr ⟨hmem.1, a, ha, hmem.2⟩
    · intro h2 s hs
      by_cases hlt : ((List.zipWith (fillSlot resp) ids insts).map Prod.snd).sum < ids.length
      · rw [if_pos hlt] at h2
        exact absurd h2 (by simp)
      · have hge : ids.length ≤
            ((List.zipWith (fillSlot resp) ids insts).map Prod.snd).sum := by omega
        have := fills_sum_ge_all_filled resp hnd ids insts hlen hge s hs
        exact Option.isSome_iff_ne_none.1 this
    · intro hnil
      have hiff := fills_sum_lt_iff_missing resp hnd ids insts hlen hnil
      by_cases hlt : ((List.zipWith (fillSlot resp) ids insts).map Prod.snd).sum < ids.length
      · rw [if_pos hlt]
        simp only [true_iff, iff_true]
        exact hiff.1 hlt
      · rw [if_neg hlt]
        constructor
        · intro h
          exact absurd h (by simp)
        · intro h
          exact absurd (hiff.2 h) hlt

/-- Witness for `gather_slot_discipline` at a concrete input: with all
slots nil on entry and one of two ids absent from the response, the pass
reports the missing signal exactly because a slot stays nil. -/
theorem gather_slot_discipline_witness :
    (gatherInstances (.ok [{ instanceId := "i-a" }]) ["i-a", "i-b"]
        [none, none]).2 = some Err.missingInstance ↔
      ∃ s ∈ (gatherInstances (.ok [{ instanceId := "i-a" }]) ["i-a", "i-b"]
        [none, none]).1, s = none :=
  (gather_slot_discipline [{ instanceId := "i-a" }] ["i-a", "i-b"] [none, none]
      (by decide) (by decide)).2.2.2.2 (by decide)

/-- A member of a zipped-with list comes from members of the two inputs. -/
theorem exists_of_mem_zipWith {α β γ : Type} (f : α → β → γ) :
    ∀ (as : List α) (bs : List β) (c : γ), c ∈ List.zipWith f as bs →
      ∃ a b, a ∈ as ∧ b ∈ bs ∧ c = f a b := by
  intro as
  induction as with
  | nil =>
      intro bs c h
      simp at h
  | cons a as2 ih =>
      intro bs c h
      cases bs with
      | nil => simp at h
      | cons b bs2 =>
          rw [List.zipWith_cons_cons] at h
          rcases List.mem_cons.1 h with rfl | h2
          · exact ⟨a, b, List.mem_cons_self a as2, List.mem_cons_self b bs2, rfl⟩
          · obtain ⟨a2, b2, ha, hb, hc⟩ := ih bs2 c h2
            exact ⟨a2, b2, List.mem_cons_of_mem _ ha, List.mem_cons_of_mem _ hb, hc⟩

/-- One gathering pass keeps the slot array's length. -/
theorem gather_length (r : Except Err (List EC2Instance)) (ids : List String)
    (insts : List (Option EC2Instance)) (hlen : insts.length = ids.length) :
    (gatherInstances r ids insts).1.length = insts.length := by
  by_cases hneed : gatherNeed ids insts = []
  · rw [gatherInstances_need_nil _ _ _ hneed]
  · cases r with
    | error e => rw [gatherInstances_error_of_need _ _ _ hneed]
    | ok resp =>
        rw [gatherInstances_ok_of_need _ _ _ hneed]
        simp [List.length_zipWith, hlen]

/-- One gathering pass ends in success, the missing signal, or the listing
call's own error. -/
theorem gather_err_classify (r : Except Err (List EC2Instance)) (ids : List String)
    (insts : List (Option EC2Instance)) :
    (gatherInstances r ids insts).2 = none ∨
      (gatherInstances r ids insts).2 = some Err.missingInstance ∨
      ∃ e, r = .error e ∧ (gatherInstances r ids insts).2 = some e := by
  by_cases hneed : gatherNeed ids insts = []
  · rw [gatherInstances_need_nil _ _ _ hneed]
    exact Or.inl rfl
  · cases r with
    | error e =>
        rw [gatherInstances_error_of_need _ _ _ hneed]
        exact Or.inr (Or.inr ⟨e, rfl, rfl⟩)
    | ok resp =>
        rw [gatherInstances_ok_of_need _ _ _ hneed]
        by_cases hlt : ((List.zipWith (fillSlot resp) ids insts).map Prod.snd).sum < ids.length
        · rw [if_pos hlt]
          exact Or.inr (Or.inl rfl)
        · rw [if_neg hlt]
          exact Or.inl rfl

/-- A successful gathering pass leaves at least one filled slot (for a
non-empty id list). -/
theorem gather_success_any (r : Except Err (List EC2Instance)) (ids : List String)
    (insts : List (Option EC2Instance)) (hlen : insts.length = ids.length)
    (hids : ids ≠ []) :
    (gatherInstances r ids insts).2 = none →
      (gatherInstances r ids insts).1.any Option.isSome = true := by
  intro h
  by_cases hneed : gatherNeed ids insts = []
  · rw [gatherInstances_need_nil _ _ _ hneed]
    have hne : insts ≠ [] := by
      intro he
      subst he
      exact hids (List.length_eq_zero.1 hlen.symm)
    obtain ⟨s, hs⟩ := List.exists_mem_of_ne_nil insts hne
    have hsn := (gatherNeed_nil_iff ids insts hlen).1 hneed s hs
    rw [List.any_eq_true]
    exact ⟨s, hs, Option.isSome_iff_ne_none.2 hsn⟩
  · cases r with
    | error e =>
        rw [gatherInstances_error_of_need _ _ _ hneed] at h
        exact absurd h (by simp)
    | ok resp =>
        rw [gatherInstances_ok_of_need _ _ _ hneed] at h ⊢
        by_cases hlt : ((List.zipWith (fillSlot resp) ids insts).map Prod.snd).sum < ids.length
        · rw [if_pos hlt] at h
          exact absurd h (by simp)
        · have hpos : 0 < ((List.zipWith (fillSlot resp) ids insts).map Prod.snd).sum := by
            have := List.length_pos.2 hids
            omega
          obtain ⟨x, hx, hx0⟩ :
              ∃ x ∈ (List.zipWith (fillSlot resp) ids insts).map Prod.snd, x ≠ 0 := by
            by_contra hall
            push_neg at hall
            have := List.sum_eq_zero hall
            omega
          obtain ⟨pr, hpr, hprx⟩ := List.mem_map.1 hx
          obtain ⟨a, b, _, _, hab⟩ := exists_of_mem_zipWith (fillSlot resp) ids insts pr hpr
          have hsome : pr.1.isSome = true := by
            subst hab
            cases b with
            | some v => simp [fillSlot]
            | none =>
                rw [fillSlot_isSome_iff_snd_pos, hprx]
                omega
          rw [List.any_eq_true]
          exact ⟨pr.1, List.mem_map_of_mem Prod.fst hpr, hsome⟩

/-- The retry loop of `Instances` keeps the slot array's length. -/
theorem instancesLoop_length (ids : List String) :
    ∀ (resps : List (Except Err (List EC2Instance))) (insts : List (Option EC2Instance)),
      insts.length = ids.length →
      (instancesLoop ids resps insts).1.length = ids.length := by
  intro resps
  induction resps with
  | nil =>
      intro insts hlen
      exact hlen
  | cons r rs ih =>
      intro insts hlen
      have hg : (gatherInstances r ids insts).1.length = ids.length := by
        rw [gather_length r ids insts hlen, hlen]
      cases rs with
      | nil =>
          have hstep : instancesLoop ids [r] insts =
              (if (gatherInstances r ids insts).2 = none ∨
                  (gatherInstances r ids insts).2 ≠ some Err.missingInstance
                then gatherInstances r ids insts
                else gatherInstances r ids insts) := rfl
          rw [hstep]
          split <;> exact hg
      | cons r2 rs2 =>
          have hstep : instancesLoop ids (r :: r2 :: rs2) insts =
              (if (gatherInstances r ids insts).2 = none ∨
                  (gatherInstances r ids insts).2 ≠ some Err.missingInstance
                then gatherInstances r ids insts
                else instancesLoop ids (r2 :: rs2) (gatherInstances r ids insts).1) := rfl
          rw [hstep]
          split
          · exact hg
          · exact ih _ hg

/-- The retry loop of `Instances` ends in success, the missing signal, or
the error of one of the listing calls it made. -/
theorem instancesLoop_err_classify (ids : List String) :
    ∀ (resps : List (Except Err (List EC2Instance))) (insts : List (Option EC2Instance)),
      (instancesLoop ids resps insts).2 = none ∨
        (instancesLoop ids resps insts).2 = some Err.missingInstance ∨
        ∃ e, Except.error e ∈ resps ∧ (instancesLoop ids resps insts).2 = some e := by
  intro resps
  induction resps with
  | nil =>
      intro insts
      exact Or.inr (Or.inl rfl)
  | cons r rs ih =>
      intro insts
      have hgc : (gatherInstances r ids insts).2 = none ∨
          (gatherInstances r ids insts).2 = some Err.missingInstance ∨
          ∃ e, Except.error e ∈ r :: rs ∧ (gatherInstances r ids insts).2 = some e := by
        rcases gather_err_classify r ids insts with h | h | ⟨e, he, h2⟩
        · exact Or.inl h
        · exact Or.inr (Or.inl h)
        · refine Or.inr (Or.inr ⟨e, ?_, h2⟩)
          rw [he]
          exact List.mem_cons_self _ _
      cases rs with
      | nil =>
          have hstep : instancesLoop ids [r] insts =
              (if (gatherInstances r ids insts).2 = none ∨
                  (gatherInstances r ids insts).2 ≠ some Err.missingInstance
                then gatherInstances r ids insts
                else gatherInstances r ids insts) := rfl
          rw [hstep]
          split <;> exact hgc
      | cons r2 rs2 =>
          have hstep : instancesLoop ids (r :: r2 :: rs2) insts =
              (if (gatherInstances r ids insts).2 = none ∨
                  (gatherInstances r ids insts).2 ≠ some Err.missingInstance
                then gatherInstances r ids insts
                else instancesLoop ids (r2 :: rs2) (gatherInstances r ids insts).1) := rfl
          rw [hstep]
          split
          · exact hgc
          · rcases ih (gatherInstances r ids insts).1 with h | h | ⟨e, he, h2⟩
            · exact Or.inl h
            · exact Or.inr (Or.inl h)
            · exact Or.inr (Or.inr ⟨e, List.mem_cons_of_mem _ he, h2⟩)

/-- If the retry loop of `Instances` ends in success, some slot is
filled. -/
theorem instancesLoop_success_any (ids : List String) (hids : ids ≠ []) :
    ∀ (resps : List (Except Err (List EC2Instance))) (insts : List (Option EC2Instance)),
      insts.length = ids.length →
      (instancesLoop ids resps insts).2 = none →
      (instancesLoop ids resps insts).1.any Option.isSome = true := by
  intro resps
  induction resps with
  | nil =>
      intro insts _ h
      exact absurd h (by simp [instancesLoop])
  | cons r rs ih =>
      intro insts hlen h
      have hg : (gatherInstances r ids insts).1.length = ids.length := by
        rw [gather_length r ids insts hlen, hlen]
      cases rs with
      | nil =>
          have hstep : instancesLoop ids [r] insts =
              (if (gatherInstances r ids insts).2 = none ∨
                  (gatherInstances r ids insts).2 ≠ some Err.missingInstance
                then gatherInstances r ids insts
                else gatherInstances r ids insts) := rfl
          rw [hstep] at h ⊢
          have h2 : (gatherInstances r ids insts).2 = none := by
            revert h
            split <;> exact id
          have := gather_success_any r ids insts hlen hids h2
          revert this
          split <;> exact id
      | cons r2 rs2 =>
          have hstep : instancesLoop ids (r :: r2 :: rs2) insts =
              (if (gatherInstances r ids insts).2 = none ∨
                  (gatherInstances r ids insts).2 ≠ some Err.missingInstance
                then gatherInstances r ids insts
                else instancesLoop ids (r2 :: rs2) (gatherInstances r ids insts).1) := rfl
          rw [hstep] at h ⊢
          by_cases hcond : (gatherInstances r ids insts).2 = none ∨
              (gatherInstances r ids insts).2 ≠ some Err.missingInstance
          · rw [if_pos hcond] at h ⊢
            exact gather_success_any r ids insts hlen hids h
          · rw [if_neg hcond] at h ⊢
            exact ih _ hg h

/-- Claim C5: for a non-empty id list, `Instances` returns the slot array
(of length `len(ids)`) together with whatever terminal error or
missing-signal the loop ended with exactly when at least one slot was
filled; with zero instances found it returns no results and a non-nil
error, which is the missing signal or the error of one of the listing
calls. -/
theorem instances_partial_results (resps : List (Except Err (List EC2Instance)))
    (ids : List String) (hids : ids ≠ []) :
    (∀ arr, (Instances resps ids).1 = some arr →
      arr.length = ids.length ∧ arr.any Option.isSome = true) ∧
    ((Instances resps ids).1 = none →
      (Instances resps ids).2 ≠ none ∧
        ((Instances resps ids).2 = some Err.missingInstance ∨
          ∃ e, Except.error e ∈ resps ∧ (Instances resps ids).2 = some e)) ∧
    ((Instances resps ids).2 = none ∨ (Instances resps ids).2 = some Err.missingInstance ∨
      ∃ e, Except.error e ∈ resps ∧ (Instances resps ids).2 = some e) := by
  have hempty : ids.isEmpty = false := by
    cases ids with
    | nil => exact absurd rfl hids
    | cons a l => rfl
  have hlen0 : (List.replicate ids.length (none : Option EC2Instance)).length = ids.length :=
    List.length_replicate ids.length none
  have hstep : Instances resps ids =
      (if (instancesLoop ids resps (List.replicate ids.length none)).1.any Option.isSome
        then (some (instancesLoop ids resps (List.replicate ids.length none)).1,
              (instancesLoop ids resps (List.replicate ids.length none)).2)
        else (none, (instancesLoop ids resps (List.replicate ids.length none)).2)) := by
    simp [Instances, hempty]
  rw [hstep]
  by_cases hany : (instancesLoop ids resps (List.replicate ids.length none)).1.any
      Option.isSome = true
  · rw [if_pos hany]
    refine ⟨?_, ?_, ?_⟩
    · intro arr harr
      have : arr = (instancesLoop ids resps (List.replicate ids.length none)).1 := by
        injection harr with h
        exact h.symm
      subst this
      exact ⟨instancesLoop_length ids resps _ hlen0, hany⟩
    · intro hnone
      exact absurd hnone (by simp)
    · exact instancesLoop_err_classify ids resps _
  · rw [if_neg hany]
    refine ⟨?_, ?_, ?_⟩
    · intro arr harr
      exact absurd harr (by simp)
    · intro _
      constructor
      · intro h0
        exact hany (instancesLoop_success_any ids hids resps _ hlen0 h0)
      · rcases instancesLoop_err_classify ids resps
            (List.replicate ids.length none) with h | h | ⟨e, he, h2⟩
        · exact absurd (instancesLoop_success_any ids hids resps _ hlen0 h) hany
        · exact Or.inl h
        · exact Or.inr ⟨e, he, h2⟩
    · exact instancesLoop_err_classify ids resps _

/-- Witness for `instances_partial_results`: one id never appearing in the
one granted attempt gives no results and the missing signal. -/
theorem instances_partial_results_witness :
    (Instances [.ok []] ["i-a"]).2 ≠ none ∧
      ((Instances [.ok []] ["i-a"]).2 = some Err.missingInstance ∨
        ∃ e, Except.error e ∈ ([.ok []] : List (Except Err (List EC2Instance))) ∧
          (Instances [.ok []] ["i-a"]).2 = some e) :=
  (instances_partial_results [.ok []] ["i-a"] (by decide)).2.1 rfl

end JujuEC2
